import Mathlib

/-!
Verification of the buffer-synchronization protocol client of the merlin
vim plugin (`vim/autoload/merlin.py`) against its natural-language
specification.  The Python source is shallowly embedded: pure response
handling becomes Lean functions over a small JSON value type, the
stateful pieces (sync mark, flags, navigator index) become explicit
state passing, and the subprocess and editor are modelled as oracles
(functions supplied as inputs) whose answers the code consumes.
-/

namespace Merlin

/-- JSON values, as far as the plugin inspects them: the protocol is
line-delimited JSON, responses are small arrays and objects. -/
inductive J where
  | null
  | bool (b : Bool)
  | num (n : Int)
  | str (s : String)
  | arr (xs : List J)
  | obj (kvs : List (String × J))

/-- The three exception classes raised by `send_command`
(`Failure`, `Error`, `MerlinException` in the source), each carrying the
response payload.  All three subclass `MerlinExc` in the source, so a
handler for `MerlinExc` catches any of them. -/
inductive MExc where
  | failure (p : Option J)
  | merlinError (p : Option J)
  | merlinException (p : Option J)

/-- Python runtime errors the embedded code can hit (list index out of
range, bad dynamic type), plus fuel exhaustion used to model a loop that
has not terminated within the allotted number of iterations. -/
inductive PyErr where
  | indexError
  | typeError
  | fuelOut
deriving DecidableEq

/-- Observable outcome of one `send_command` call: a normal return with
an optional payload, a raised merlin exception, or an IndexError from
`result[0]` on an empty response array. -/
inductive SCOut where
  | ret (p : Option J)
  | raised (e : MExc)
  | indexError

/-- Whether a `send_command` outcome raised one of the merlin exceptions. -/
def SCOut.isRaised : SCOut → Bool
  | SCOut.raised _ => true
  | _ => false

/-- Embedding of the response-handling part of `send_command`
(merlin.py lines 60-78).  `result` is the parsed response array;
`content` is set to `result[1]` exactly when the array has two elements,
then the first element is compared against the four known tags.  A tag
matching none of the four falls off the end of the Python function,
which therefore returns `None`. -/
def send_command_result (result : List J) : SCOut :=
  match result.get? 0 with
  | none => SCOut.indexError
  | some tag =>
    let content := if result.length = 2 then result.get? 1 else none
    match tag with
    | J.str s =>
      if s = "return" then SCOut.ret content
      else if s = "failure" then SCOut.raised (MExc.failure content)
      else if s = "error" then SCOut.raised (MExc.merlinError content)
      else if s = "exception" then SCOut.raised (MExc.merlinException content)
      else SCOut.ret none
    | _ => SCOut.ret none

/-- Python list slicing `xs[a:b]` for non-negative bounds: the elements
with indices `a ≤ i < b` (clipped to the list's length). -/
def pySlice (xs : List α) (a b : Nat) : List α :=
  (xs.take b).drop a

/-- The editor-side synchronization token returned by `vimbufsync.sync()`.
Modelled from the spec: the external `vimbufsync` module is not part of
this repository; per the spec a token is "an opaque content-identity
token ... plus a Position marking how far into the buffer that identity
was last confirmed", carrying the buffer number (`bufnr()`) and a
position (`pos()`).  With no intervening edits, a fresh token equals the
saved one. -/
structure SyncTok where
  bufnr : Nat
  pos : Nat × Nat
deriving DecidableEq

/-- Oracle for the subprocess answers consumed by one `sync_buffer_to`
call: the position answered by `seek before`, and the boolean answered
to the i-th `tell` command of the feed loop. -/
structure SyncEnv where
  seek_before : Nat → Nat → Nat × Nat
  tell : Nat → Bool

/-- Protocol commands `sync_buffer_to` emits, recorded as a trace.
A `tell` event records the content argument: `some lines` for a list of
buffer lines, `none` for Python `None` (sent as JSON null). -/
inductive Ev where
  | reset (name : Option String)
  | tellStruct (content : Option (List String))
  | tellEnd (content : Option (List String))
  | seekBefore (req : Nat × Nat) (resp : Nat × Nat)
  | seekExact (line col : Nat)
deriving DecidableEq

/-- Wire argument produced by `command_tell` (merlin.py lines 129-133):
a list content is joined with newlines and terminated by one, any other
content (here: `None`) is passed through unchanged. -/
inductive TellArg where
  | text (s : String)
  | null
deriving DecidableEq

/-- Embedding of `command_tell`'s treatment of its content argument. -/
def command_tell_wire : Option (List String) → TellArg
  | some ls => TellArg.text (String.intercalate "\n" ls ++ "\n")
  | none => TellArg.null

/-- Embedding of `os.path.basename`: the component after the last slash. -/
def basename (s : String) : String :=
  (s.splitOn "/").getLastD ""

/-- Embedding of `command_reset` (merlin.py lines 120-127) acting on the
`saved_sync` state: the reset command is sent (with or without a name)
and the saved sync mark is set to `None`. -/
def command_reset (name : Option String) (st : Option SyncTok) :
    Option SyncTok × Ev :=
  (none, Ev.reset name)

/-- Content selection of `sync_buffer_to` (merlin.py lines 179-191):
decides between the incremental branch (a saved mark for the same buffer
exists and the subprocess's `seek before` answer lands beyond line 1)
and the full-reset branch, and computes the events emitted so far
together with the content to feed.  `end_line` is `min to_line max_line`
as computed by the caller.  An IndexError is reported when the answered
line is outside the buffer (Python `cb[line-1]`). -/
def sync_plan (env : SyncEnv) (st : Option SyncTok) (curr : SyncTok)
    (name : String) (cb : List String) (end_line : Nat) :
    Except PyErr (List Ev × List String) :=
  match st with
  | some saved =>
    if curr.bufnr = saved.bufnr then
      let ans := env.seek_before saved.pos.1 saved.pos.2
      let ev := Ev.seekBefore saved.pos ans
      if ans.1 ≤ 1 then
        Except.ok ([ev, Ev.reset (some (basename name))], pySlice cb 0 end_line)
      else
        match cb.get? (ans.1 - 1) with
        | none => Except.error PyErr.indexError
        | some ln =>
          Except.ok ([ev], (ln.drop ans.2) :: pySlice cb ans.1 end_line)
    else
      Except.ok ([Ev.reset (some (basename name))], pySlice cb 0 end_line)
  | none =>
    Except.ok ([Ev.reset (some (basename name))], pySlice cb 0 end_line)

/-- Embedding of the feed loop of `sync_buffer_to` (merlin.py lines
193-203).  The loop sends `tell` with the current content, and while the
subprocess answers falsy: if `end_line < max_line` it advances by a
20-line window and resends that slice (tagged "end"), otherwise it sets
the content to `None` and iterates again — so the loop keeps issuing
`tell end null` until the subprocess answers truthy, and does not
terminate if it never does, which the `fuel` argument makes explicit. -/
def feedLoop (tell : Nat → Bool) (cb : List String) (max_line : Nat) :
    Nat → Nat → Bool → Option (List String) → Nat → Except PyErr (List Ev)
  | 0, _, _, _, _ => Except.error PyErr.fuelOut
  | fuel + 1, i, isStruct, content, end_line =>
    let ev := if isStruct then Ev.tellStruct content else Ev.tellEnd content
    if tell i then Except.ok [ev]
    else if end_line < max_line then
      let next_end := min max_line (end_line + 20)
      (feedLoop tell cb max_line fuel (i + 1) false
        (some (pySlice cb end_line next_end)) next_end).map (ev :: ·)
    else
      (feedLoop tell cb max_line fuel (i + 1) false none end_line).map (ev :: ·)

/-- Embedding of `sync_buffer_to` (merlin.py lines 172-205): computes
the content via `sync_plan`, records the new saved mark (always the
fresh token `curr`), feeds the content when it is non-empty (Python list
truthiness), and finishes with an exact seek to the target position. -/
def sync_buffer_to (env : SyncEnv) (fuel : Nat) (st : Option SyncTok)
    (curr : SyncTok) (name : String) (cb : List String)
    (to_line to_col : Nat) : Except PyErr (Option SyncTok × List Ev) :=
  let max_line := cb.length
  let end_line := min to_line max_line
  match sync_plan env st curr name cb end_line with
  | Except.error e => Except.error e
  | Except.ok (evs, content) =>
    match (if content.isEmpty then Except.ok [] else
        feedLoop env.tell cb max_line fuel 0 true (some content) end_line) with
    | Except.error e => Except.error e
    | Except.ok fevs =>
      Except.ok (some curr, evs ++ fevs ++ [Ev.seekExact to_line to_col])

/-- The successive 20-line windows the feed loop can send after
confirmed line `e`, up to `m`: the slice `cb[e : min m (e+20)]` followed
by the windows starting at `min m (e+20)`. -/
def chunkSeq (cb : List String) (e m : Nat) : List (List String) :=
  if h : e < m then
    pySlice cb e (min m (e + 20)) :: chunkSeq cb (min m (e + 20)) m
  else []
termination_by m - e
decreasing_by
  simp only [Nat.min_def]
  split <;> omega

/-- The contents of the trace's tell events that carry lines (Python
list content), in order. -/
def lineContents (evs : List Ev) : List (List String) :=
  evs.filterMap fun ev =>
    match ev with
    | Ev.tellStruct (some c) => some c
    | Ev.tellEnd (some c) => some c
    | _ => none

/-- Number of tell commands in a trace (with or without line content). -/
def tellCount (evs : List Ev) : Nat :=
  (evs.filter fun ev =>
    match ev with
    | Ev.tellStruct _ => true
    | Ev.tellEnd _ => true
    | _ => false).length

/-- Process-wide state touched by `restart` and the flag commands:
the startup flags, the saved sync mark, and a generation counter
standing for which subprocess incarnation is running (terminating and
respawning bumps it). -/
structure Session where
  flags : List String
  saved_sync : Option SyncTok
  generation : Nat
deriving DecidableEq

/-- Embedding of `restart` (merlin.py lines 35-58): the old subprocess
is terminated and a new one spawned with the current flags.  Nothing
else of the process-wide state is touched — in particular `saved_sync`
is left as it was. -/
def restart (s : Session) : Session :=
  { s with generation := s.generation + 1 }

/-- Embedding of `vim_add_flags` (merlin.py lines 389-391): extend the
flags list, then restart. -/
def vim_add_flags (args : List String) (s : Session) : Session :=
  restart { s with flags := s.flags ++ args }

/-- Embedding of `vim_clear_flags` (merlin.py lines 384-387): empty the
flags list, then restart. -/
def vim_clear_flags (s : Session) : Session :=
  restart { s with flags := [] }

/-- State of the enclosing-scope navigator: the global
`enclosing_types` list and the integer index `current_enclosing`.
The element type is a parameter (`J` values in the plugin). -/
structure NavState (α : Type) where
  enclosing_types : List α
  current_enclosing : Int
deriving DecidableEq

/-- Python list indexing `xs[i]` for an `int` index: negative indices
count from the end; an index out of range raises, modelled as `none`. -/
def pyIndex (xs : List α) (i : Int) : Option α :=
  let j := if i < 0 then (xs.length : Int) + i else i
  if 0 ≤ j then xs.get? j.toNat else none

/-- Embedding of `vim_next_enclosing` (merlin.py lines 333-342): if the
sequence is non-empty, increment the index when it is below the length,
then emit the frame at the new index when that is still below the
length.  The emission abstracts the source's highlight creation and
`print` of the frame's type. -/
def vim_next_enclosing (s : NavState α) : NavState α × Option α :=
  if s.enclosing_types.isEmpty then (s, none)
  else
    let ce := if s.current_enclosing < (s.enclosing_types.length : Int)
      then s.current_enclosing + 1 else s.current_enclosing
    let emit := if ce < (s.enclosing_types.length : Int)
      then pyIndex s.enclosing_types ce else none
    (⟨s.enclosing_types, ce⟩, emit)

/-- Embedding of `vim_prev_enclosing` (merlin.py lines 344-353): if the
sequence is non-empty, decrement the index when it is at least 0, then
emit the frame at the new index when that is still at least 0. -/
def vim_prev_enclosing (s : NavState α) : NavState α × Option α :=
  if s.enclosing_types.isEmpty then (s, none)
  else
    let ce := if 0 ≤ s.current_enclosing
      then s.current_enclosing - 1 else s.current_enclosing
    let emit := if 0 ≤ ce then pyIndex s.enclosing_types ce else none
    (⟨s.enclosing_types, ce⟩, emit)

/-- One navigator step: `true` is `vim_next_enclosing`, `false` is
`vim_prev_enclosing` (state part only). -/
def navStep (d : Bool) (s : NavState α) : NavState α :=
  if d then (vim_next_enclosing s).1 else (vim_prev_enclosing s).1

/-- An arbitrary interleaving of forward and backward steps. -/
def navSteps (ds : List Bool) (s : NavState α) : NavState α :=
  ds.foldl (fun s d => navStep d s) s

/-- The navigator index invariant: `-1 ≤ current_enclosing ≤ N`. -/
def navInv (s : NavState α) : Prop :=
  -1 ≤ s.current_enclosing ∧
    s.current_enclosing ≤ (s.enclosing_types.length : Int)

instance (s : NavState α) : Decidable (navInv s) := by
  unfold navInv; infer_instance

/-- A line/column position as the matcher functions consume it
(Python ints, so arithmetic like `stop.line - 1` does not truncate). -/
structure MPos where
  line : Int
  col : Int
deriving DecidableEq

/-- Embedding of `easy_matcher` (merlin.py lines 306-313): build a vim
highlight pattern for a rectangular region, with the lower line/column
atoms emitted only for positive starts. -/
def easy_matcher (start stop : MPos) : String :=
  let startl := if start.line > 0
    then "\\%>" ++ toString (start.line - 1) ++ "l" else ""
  let startc := if start.col > 0
    then "\\%>" ++ toString start.col ++ "c" else ""
  startl ++ startc ++ "\\%<" ++ toString (stop.line + 1) ++ "l\\%<"
    ++ toString (stop.col + 1) ++ "c"

/-- Embedding of `hard_matcher` (merlin.py lines 315-325): decompose a
multi-line span into the tail of the start line (columns capped at the
constant 4242), the interior lines (columns capped at 4242), and the
head of the end line, joined as pattern alternatives. -/
def hard_matcher (start stop : MPos) : String :=
  let first_start : MPos := ⟨start.line, start.col⟩
  let first_stop : MPos := ⟨start.line, 4242⟩
  let first_line := easy_matcher first_start first_stop
  let mid_start : MPos := ⟨start.line + 1, 0⟩
  let mid_stop : MPos := ⟨stop.line - 1, 4242⟩
  let middle := easy_matcher mid_start mid_stop
  let last_start : MPos := ⟨stop.line, 0⟩
  let last_stop : MPos := ⟨stop.line, stop.col⟩
  let last_line := easy_matcher last_start last_stop
  first_line ++ "\\|" ++ middle ++ "\\|" ++ last_line

/-- Embedding of `make_matcher` (merlin.py lines 327-331). -/
def make_matcher (start stop : MPos) : String :=
  if start.line = stop.line then easy_matcher start stop
  else hard_matcher start stop

/-- Modelled from the spec: the meaning of the vim pattern atoms the
matchers emit — the highlighting primitive "can only match within
rectangular single-line column ranges combined with line ranges".
A position (l, c) is inside the region `easy_matcher start stop`
produces iff it satisfies each emitted atom: after line `start.line - 1`
(only when `start.line > 0`), after column `start.col` (only when
`start.col > 0`), before line `stop.line + 1` and before column
`stop.col + 1`. -/
def easy_region (start stop : MPos) (l c : Int) : Prop :=
  (start.line > 0 → start.line - 1 < l) ∧
  (start.col > 0 → start.col < c) ∧
  l < stop.line + 1 ∧ c < stop.col + 1

instance (start stop : MPos) (l c : Int) :
    Decidable (easy_region start stop l c) := by
  unfold easy_region; infer_instance

/-- The region of `hard_matcher`'s pattern: the union of the three
`easy_region`s at exactly the sub-spans `hard_matcher` passes to
`easy_matcher`. -/
def hard_region (start stop : MPos) (l c : Int) : Prop :=
  easy_region ⟨start.line, start.col⟩ ⟨start.line, 4242⟩ l c ∨
  easy_region ⟨start.line + 1, 0⟩ ⟨stop.line - 1, 4242⟩ l c ∨
  easy_region ⟨stop.line, 0⟩ ⟨stop.line, stop.col⟩ l c

instance (start stop : MPos) (l c : Int) :
    Decidable (hard_region start stop l c) := by
  unfold hard_region; infer_instance

/-- Result of one `vim_type` call: either a type was printed (with the
approximation marker state, the expression used if any, and the
normalized payload), or the failure was handed to `try_print_error`
(merlin.py lines 83-107), every branch of which prints a message. -/
inductive VimTypeOut where
  | printed (approx : Bool) (expr : Option String) (ty : J)
  | reportedVia (e : MExc)

/-- Normalization `vim_type` applies to the payload (merlin.py lines
276-278): a dict with a "type" field is replaced by that field.  (The
source stringifies a dict without one; the value is carried unchanged
here since only its presence matters downstream.) -/
def ty_normalize : J → J
  | J.obj kvs =>
    match kvs.lookup "type" with
    | some t => t
    | none => J.obj kvs
  | t => t

/-- Oracle for the subprocess answers to the two type queries `vim_type`
can issue: `["type","expression",e,"at",pos]` and `["type","at",pos]`,
each either a payload or a raised merlin exception. -/
structure TypeEnv where
  typeExpr : String → Except MExc J
  typeAt : Except MExc J

/-- Embedding of `vim_type` (merlin.py lines 268-286): with an
expression, query its type; on a merlin exception retry without the
expression and with the approximation marker set.  Without an
expression, query the type at the cursor; on a merlin exception hand it
to `try_print_error`. -/
def vim_type (env : TypeEnv) : Option String → Bool → VimTypeOut
  | some e, is_approx =>
    match env.typeExpr e with
    | Except.ok ty => VimTypeOut.printed is_approx (some e) (ty_normalize ty)
    | Except.error _ => vim_type env none true
  | none, is_approx =>
    match env.typeAt with
    | Except.ok ty => VimTypeOut.printed is_approx none (ty_normalize ty)
    | Except.error ex => VimTypeOut.reportedVia ex
termination_by o _ => if o.isSome then 1 else 0

/-- Observable result of `vim_type_enclosing`: a frame emitted by the
immediate `vim_next_enclosing`, a fallback into `vim_type`, or nothing. -/
inductive TEOut where
  | emitted (frame : J)
  | fallback (out : VimTypeOut)
  | nothingEmitted

/-- Python `enclosing_types == []`: true exactly for an empty JSON
array (any other value compares unequal to the empty list). -/
def isEmptyArr : J → Bool
  | J.arr [] => true
  | _ => false

/-- Embedding of `vim_type_enclosing` (merlin.py lines 289-304): reset
the navigator state, issue "type enclosing" at the cursor; on a merlin
exception fall back to `vim_type` with the approximation marker; on
success set `enclosing_types` to `result[1]` — the second element of
the payload, raising IndexError when the payload has no element 1 and
TypeError (via `len`) when that element is not an array — and either
fall back (empty) or perform one `vim_next_enclosing`. -/
def vim_type_enclosing (teResp : Except MExc J) (env : TypeEnv)
    (expr : Option String) : Except PyErr (NavState J × TEOut) :=
  match teResp with
  | Except.error _ =>
    Except.ok (⟨[], -1⟩, TEOut.fallback (vim_type env expr true))
  | Except.ok payload =>
    match payload with
    | J.arr xs =>
      match xs.get? 1 with
      | none => Except.error PyErr.indexError
      | some et =>
        if isEmptyArr et then
          Except.ok (⟨[], -1⟩, TEOut.fallback (vim_type env expr true))
        else
          match et with
          | J.arr frames =>
            let r := vim_next_enclosing (⟨frames, -1⟩ : NavState J)
            match r.2 with
            | some f => Except.ok (r.1, TEOut.emitted f)
            | none => Except.ok (r.1, TEOut.nothingEmitted)
          | _ => Except.error PyErr.typeError
    | _ => Except.error PyErr.typeError

/-- Iterated forward stepping (state part of `vim_next_enclosing`). -/
def nextIter : Nat → NavState α → NavState α
  | 0, s => s
  | k + 1, s => nextIter k (vim_next_enclosing s).1

/-- Iterated backward stepping (state part of `vim_prev_enclosing`). -/
def prevIter : Nat → NavState α → NavState α
  | 0, s => s
  | k + 1, s => prevIter k (vim_prev_enclosing s).1

/-- C1 counterexample: a response with the unknown tag "bogus" makes
`send_command` fall off the end of the function and return `None` — a
silent `None` result, with no exception raised — contradicting the
claim that any other tag is surfaced as a protocol-violation fatal
error and never yields a silent success or a `None` result. -/
theorem unknown_tag_silent_none :
    send_command_result [J.str "bogus", J.str "x"] = SCOut.ret none ∧
    (send_command_result [J.str "bogus", J.str "x"]).isRaised = false :=
  ⟨rfl, rfl⟩

/-- C1 (amended): for every response array of one or two elements, the
payload is the second element exactly when it is present, and the tag
dispatches as: "return" yields the payload, "failure", "error" and
"exception" raise the corresponding exception carrying the payload —
but any other tag (including a non-string tag) falls through and yields
a `None` result, indistinguishable from a successful return with no
payload, rather than being surfaced as an error. -/
theorem send_command_tag_dispatch (s : String) (p : J) :
    (send_command_result [J.str s, p] =
      if s = "return" then SCOut.ret (some p)
      else if s = "failure" then SCOut.raised (MExc.failure (some p))
      else if s = "error" then SCOut.raised (MExc.merlinError (some p))
      else if s = "exception" then SCOut.raised (MExc.merlinException (some p))
      else SCOut.ret none) ∧
    (send_command_result [J.str s] =
      if s = "return" then SCOut.ret none
      else if s = "failure" then SCOut.raised (MExc.failure none)
      else if s = "error" then SCOut.raised (MExc.merlinError none)
      else if s = "exception" then SCOut.raised (MExc.merlinException none)
      else SCOut.ret none) ∧
    (∀ t : J, (∀ u : String, t ≠ J.str u) →
      send_command_result [t, p] = SCOut.ret none) := by
  refine ⟨rfl, rfl, ?_⟩
  intro t h
  cases t with
  | str u => exact absurd rfl (h u)
  | null => rfl
  | bool b => rfl
  | num n => rfl
  | arr xs => rfl
  | obj kvs => rfl

/-- Witness for the C1 theorem at the tag "return" with payload null. -/
theorem send_command_tag_dispatch_witness :
    send_command_result [J.str "return", J.null] = SCOut.ret (some J.null) := by
  have h := (send_command_tag_dispatch "return" J.null).1
  simpa using h

/-- C2: when a sync mark exists for the same buffer identity, `sync_to`
seeks before the mark's saved position; if the answered line is at or
before line 1 it falls back to a full reset and the whole buffer up to
the target line; otherwise the content fed is exactly the remainder of
the answered line from the answered column, prepended as the first
fragment, followed by the buffer lines from the next line through the
target line, capped at the buffer's last line. -/
theorem sync_incremental_content (env : SyncEnv) (saved curr : SyncTok)
    (name : String) (cb : List String) (to_line : Nat) (line col : Nat)
    (hbuf : curr.bufnr = saved.bufnr)
    (hseek : env.seek_before saved.pos.1 saved.pos.2 = (line, col)) :
    (line ≤ 1 →
      sync_plan env (some saved) curr name cb (min to_line cb.length) =
        Except.ok ([Ev.seekBefore saved.pos (line, col),
          Ev.reset (some (basename name))],
          pySlice cb 0 (min to_line cb.length))) ∧
    (∀ ln, 2 ≤ line → cb.get? (line - 1) = some ln →
      sync_plan env (some saved) curr name cb (min to_line cb.length) =
        Except.ok ([Ev.seekBefore saved.pos (line, col)],
          ln.drop col :: pySlice cb line (min to_line cb.length))) := by
  constructor
  · intro h1
    simp [sync_plan, hbuf, hseek, h1]
  · intro ln h2 hln
    have hno : ¬ line ≤ 1 := by omega
    rw [List.get?_eq_getElem?] at hln
    simp [sync_plan, hbuf, hseek, hno, hln]

/-- Witness for the C2 theorem: a three-line buffer, mark at (5,0),
seek answered with (2,1): the fed content is the rest of line 2 from
column 1 followed by line 3. -/
theorem sync_incremental_content_witness :
    sync_plan ⟨fun _ _ => (2, 1), fun _ => true⟩ (some ⟨1, (5, 0)⟩)
      ⟨1, (5, 0)⟩ "a.ml" ["abc", "de", "fgh"] (min 3 3) =
      Except.ok ([Ev.seekBefore (5, 0) (2, 1)], ["e", "fgh"]) := by
  have h := (sync_incremental_content ⟨fun _ _ => (2, 1), fun _ => true⟩
    ⟨1, (5, 0)⟩ ⟨1, (5, 0)⟩ "a.ml" ["abc", "de", "fgh"] 3 2 1 rfl rfl).2
    "de" (by decide) (by decide)
  simpa using h

/-- C3: `command_reset` (with or without a name) sets the saved sync
mark to none, and a `sync_to` entered with no saved mark takes the
no-prior-mark branch: it issues a full reset and feeds the entire
buffer up to the target line. -/
theorem reset_clears_mark_full_resync (name : Option String)
    (st : Option SyncTok) (env : SyncEnv) (curr : SyncTok) (nm : String)
    (cb : List String) (e : Nat) :
    (command_reset name st).1 = none ∧
    sync_plan env none curr nm cb e =
      Except.ok ([Ev.reset (some (basename nm))], pySlice cb 0 e) :=
  ⟨rfl, rfl⟩

theorem chunkSeq_pos {cb : List String} {e m : Nat} (h : e < m) :
    chunkSeq cb e m =
      pySlice cb e (min m (e + 20)) :: chunkSeq cb (min m (e + 20)) m := by
  rw [chunkSeq]
  simp [h]

theorem chunkSeq_neg {cb : List String} {e m : Nat} (h : ¬ e < m) :
    chunkSeq cb e m = [] := by
  rw [chunkSeq]
  simp [h]

theorem chunkSeq_length (cb : List String) (e m : Nat) :
    (chunkSeq cb e m).length = (m - e + 19) / 20 := by
  induction e, m using chunkSeq.induct cb with
  | case1 e m h ih =>
    rw [chunkSeq_pos h, List.length_cons, ih]
    rcases Nat.lt_or_ge m (e + 20) with hlt | hge
    · have hm : min m (e + 20) = m := by omega
      rw [hm]
      have h1 : m - m + 19 = 19 := by omega
      have h2 : m - e + 19 = (m - e - 1) + 20 := by omega
      rw [h1, h2, Nat.add_div_right _ (by norm_num)]
      have : (m - e - 1) / 20 = 0 := Nat.div_eq_of_lt (by omega)
      simp [this]
    · have hm : min m (e + 20) = e + 20 := by omega
      rw [hm]
      have h2 : m - e + 19 = (m - (e + 20) + 19) + 20 := by omega
      rw [h2, Nat.add_div_right _ (by norm_num)]
  | case2 e m h =>
    rw [chunkSeq_neg h]
    have h1 : m - e = 0 := by omega
    simp [h1]

theorem lineContents_cons_struct (c : Option (List String)) (evs : List Ev) :
    lineContents (Ev.tellStruct c :: evs) =
      c.toList ++ lineContents evs := by
  cases c <;> simp [lineContents]

theorem lineContents_cons_end (c : Option (List String)) (evs : List Ev) :
    lineContents (Ev.tellEnd c :: evs) =
      c.toList ++ lineContents evs := by
  cases c <;> simp [lineContents]

theorem feed_contents_chain (tell : Nat → Bool) (cb : List String)
    (m : Nat) :
    ∀ fuel i b content e evs,
      feedLoop tell cb m fuel i b content e = Except.ok evs →
      lineContents evs <+: content.toList ++ chunkSeq cb e m := by
  intro fuel
  induction fuel with
  | zero => intro i b content e evs h; exact absurd h (by simp [feedLoop])
  | succ fuel ih =>
    intro i b content e evs h
    rw [feedLoop] at h
    set ev := if b then Ev.tellStruct content else Ev.tellEnd content with hev
    have hlc : ∀ rest, lineContents (ev :: rest) =
        content.toList ++ lineContents rest := by
      intro rest
      rw [hev]
      cases b
      · simp [lineContents_cons_end]
      · simp [lineContents_cons_struct]
    by_cases ht : tell i
    · rw [if_pos ht] at h
      cases h
      have h1 : lineContents [ev] = content.toList := by
        have := hlc []
        simpa [lineContents] using this
      rw [h1]
      exact List.prefix_append _ _
    · rw [if_neg ht] at h
      by_cases hm : e < m
      · rw [if_pos hm] at h
        rcases hx : feedLoop tell cb m fuel (i + 1) false
            (some (pySlice cb e (min m (e + 20)))) (min m (e + 20)) with he | evs2
        · simp [hx, Except.map] at h
        · simp only [hx, Except.map] at h
          cases h
          have htail := ih (i + 1) false (some (pySlice cb e (min m (e + 20))))
            (min m (e + 20)) evs2 hx
          rw [hlc evs2, chunkSeq_pos hm]
          cases content with
          | none => simpa using htail
          | some c =>
            simp only [Option.toList, List.cons_append, List.nil_append]
              at htail ⊢
            exact (List.prefix_cons_inj c).mpr (by simpa using htail)
      · rw [if_neg hm] at h
        rcases hx : feedLoop tell cb m fuel (i + 1) false none e with he | evs2
        · simp [hx, Except.map] at h
        · simp only [hx, Except.map] at h
          cases h
          have htail := ih (i + 1) false none e evs2 hx
          rw [chunkSeq_neg hm] at htail ⊢
          simp only [Option.toList, List.nil_append] at htail
          have h2 : lineContents evs2 = [] := List.prefix_nil.mp htail
          rw [hlc evs2, h2]

/-- C4 (amended): a successful run of the feed loop sends, among its
tell commands, line-carrying contents that form a prefix of the initial
content followed by the successive disjoint 20-line windows — so no
already-confirmed line is ever resent and at most
ceil((buffer_max_line - end_line)/20) + 1 tell commands carry lines.
The original claim's termination bound and its "no further tell
commands once end_line reaches buffer_max_line" are false: the loop
keeps issuing tell commands with null content until the subprocess
answers satisfied, and diverges if it never does (see the
counterexample). -/
theorem feed_chunks_no_resend (tell : Nat → Bool) (cb : List String)
    (m fuel : Nat) (c0 : List String) (e : Nat) (evs : List Ev)
    (h : feedLoop tell cb m fuel 0 true (some c0) e = Except.ok evs) :
    lineContents evs <+: c0 :: chunkSeq cb e m ∧
    (lineContents evs).length ≤ (m - e + 19) / 20 + 1 := by
  have hp := feed_contents_chain tell cb m fuel 0 true (some c0) e evs h
  simp only [Option.toList, List.cons_append, List.nil_append] at hp
  refine ⟨hp, ?_⟩
  have := hp.length_le
  rw [List.length_cons, chunkSeq_length] at this
  omega

/-- Witness for the C4 theorem: a single chunk accepted at once. -/
theorem feed_chunks_no_resend_witness :
    lineContents [Ev.tellStruct (some ["a", "b"])] <+:
      ["a", "b"] :: chunkSeq ["a", "b"] 2 2 ∧
    (lineContents [Ev.tellStruct (some ["a", "b"])]).length ≤
      (2 - 2 + 19) / 20 + 1 := by
  exact feed_chunks_no_resend (fun _ => true) ["a", "b"] 2 3 ["a", "b"] 2
    [Ev.tellStruct (some ["a", "b"])] rfl

/-- C4 counterexample: with `end_line` already at `buffer_max_line` and
a subprocess that answers incomplete once, the loop issues a second
tell command (with null content) after `end_line` has reached
`buffer_max_line`: 2 tell commands where the claim's bound
ceil((1-1)/20) + 1 allows 1, contradicting both the claimed round bound
and the claim that no further tell commands are issued. -/
theorem feed_extra_tell_after_max :
    feedLoop (fun i => decide (1 ≤ i)) ["x"] 1 5 0 true (some ["x"]) 1 =
      Except.ok [Ev.tellStruct (some ["x"]), Ev.tellEnd none] ∧
    tellCount [Ev.tellStruct (some ["x"]), Ev.tellEnd none] = 2 ∧
    (1 - 1 + 19) / 20 + 1 = 1 := by
  refine ⟨?_, rfl, rfl⟩
  rfl

theorem isEmpty_false_of_ne {α : Type} {ts : List α} (hne : ts ≠ []) :
    ts.isEmpty = false := by
  cases ts with
  | nil => exact absurd rfl hne
  | cons a t => rfl

theorem nav_next_step {α : Type} {ts : List α} {ce : Int} (hne : ts ≠ [])
    (hlt : ce < (ts.length : Int)) :
    vim_next_enclosing (⟨ts, ce⟩ : NavState α) =
      (⟨ts, ce + 1⟩, if ce + 1 < (ts.length : Int)
        then pyIndex ts (ce + 1) else none) := by
  simp [vim_next_enclosing, isEmpty_false_of_ne hne, hlt]

theorem nav_next_sat {α : Type} {ts : List α} {ce : Int} (hne : ts ≠ [])
    (hge : ¬ ce < (ts.length : Int)) :
    vim_next_enclosing (⟨ts, ce⟩ : NavState α) = (⟨ts, ce⟩, none) := by
  simp [vim_next_enclosing, isEmpty_false_of_ne hne, hge]

theorem nav_prev_step {α : Type} {ts : List α} {ce : Int} (hne : ts ≠ [])
    (hge : 0 ≤ ce) :
    vim_prev_enclosing (⟨ts, ce⟩ : NavState α) =
      (⟨ts, ce - 1⟩, if 0 ≤ ce - 1 then pyIndex ts (ce - 1) else none) := by
  simp [vim_prev_enclosing, isEmpty_false_of_ne hne, hge]

theorem nav_prev_sat {α : Type} {ts : List α} {ce : Int} (hne : ts ≠ [])
    (hlt : ¬ 0 ≤ ce) :
    vim_prev_enclosing (⟨ts, ce⟩ : NavState α) = (⟨ts, ce⟩, none) := by
  simp [vim_prev_enclosing, isEmpty_false_of_ne hne, hlt]

theorem navInv_step {α : Type} (d : Bool) (s : NavState α)
    (h : navInv s) : navInv (navStep d s) := by
  obtain ⟨ts, ce⟩ := s
  obtain ⟨h1, h2⟩ := h
  dsimp only at h1 h2
  by_cases hne : ts = []
  · subst hne
    cases d
    · have heq : navStep false (⟨[], ce⟩ : NavState α) = ⟨[], ce⟩ := by
        rw [navStep, if_neg (by simp)]
        simp [vim_prev_enclosing]
      rw [heq]
      exact ⟨h1, h2⟩
    · have heq : navStep true (⟨[], ce⟩ : NavState α) = ⟨[], ce⟩ := by
        rw [navStep, if_pos rfl]
        simp [vim_next_enclosing]
      rw [heq]
      exact ⟨h1, h2⟩
  · cases d
    · by_cases hge : 0 ≤ ce
      · have heq : navStep false (⟨ts, ce⟩ : NavState α) = ⟨ts, ce - 1⟩ := by
          rw [navStep, if_neg (by simp), nav_prev_step hne hge]
        rw [heq]
        refine ⟨?_, ?_⟩ <;> dsimp only <;> omega
      · have heq : navStep false (⟨ts, ce⟩ : NavState α) = ⟨ts, ce⟩ := by
          rw [navStep, if_neg (by simp), nav_prev_sat hne hge]
        rw [heq]
        exact ⟨h1, h2⟩
    · by_cases hlt : ce < (ts.length : Int)
      · have heq : navStep true (⟨ts, ce⟩ : NavState α) = ⟨ts, ce + 1⟩ := by
          rw [navStep, if_pos rfl, nav_next_step hne hlt]
        rw [heq]
        refine ⟨?_, ?_⟩ <;> dsimp only <;> omega
      · have heq : navStep true (⟨ts, ce⟩ : NavState α) = ⟨ts, ce⟩ := by
          rw [navStep, if_pos rfl, nav_next_sat hne hlt]
        rw [heq]
        exact ⟨h1, h2⟩

theorem navInv_steps {α : Type} (ds : List Bool) (s : NavState α)
    (h : navInv s) : navInv (navSteps ds s) := by
  induction ds generalizing s with
  | nil => exact h
  | cons d ds ih => exact ih (navStep d s) (navInv_step d s h)

theorem nextIter_add {α : Type} (ts : List α) :
    ∀ k j : Nat, j + k ≤ ts.length →
      nextIter k (⟨ts, (j : Int)⟩ : NavState α) = ⟨ts, ((j + k : Nat) : Int)⟩ := by
  intro k
  induction k with
  | zero => intro j _; simp [nextIter]
  | succ k ih =>
    intro j hj
    have hne : ts ≠ [] := by
      intro hnil; rw [hnil] at hj; simp at hj
    have hlt : (j : Int) < (ts.length : Int) := by
      have : j < ts.length := by omega
      exact_mod_cast this
    rw [nextIter, nav_next_step hne hlt]
    have hcast : ((j : Int) + 1) = ((j + 1 : Nat) : Int) := by push_cast; ring
    rw [hcast, ih (j + 1) (by omega)]
    congr 1
    omega

theorem prevIter_sub {α : Type} (ts : List α) :
    ∀ k j : Nat, k ≤ j → j ≤ ts.length →
      prevIter k (⟨ts, (j : Int)⟩ : NavState α) = ⟨ts, ((j - k : Nat) : Int)⟩ := by
  intro k
  induction k with
  | zero => intro j _ _; simp [prevIter]
  | succ k ih =>
    intro j hkj hj
    have hne : ts ≠ [] := by
      intro hnil; rw [hnil] at hj; simp at hj; omega
    have hge : (0 : Int) ≤ (j : Int) := by positivity
    rw [prevIter, nav_prev_step hne hge]
    have hcast : ((j : Int) - 1) = ((j - 1 : Nat) : Int) := by
      have : 1 ≤ j := by omega
      omega
    rw [hcast, ih (j - 1) (by omega) (by omega)]
    congr 1
    omega

/-- C5 (amended): under any interleaving of forward and backward steps
the navigator index stays within [-1, N]; a frame is emitted only with
the index inside [0, N-1]; stepping forward N times from a fresh query
(index 0, the innermost frame already emitted by the query itself)
lands exactly at the sentinel N with nothing emitted on the last step;
stepping backward from the sentinel takes N+1 steps (not the claimed N)
to return to -1, with nothing emitted on that final step; and on an
empty sequence either stepper leaves the state unchanged and emits
nothing. -/
theorem navigator_bounds {α : Type} (s : NavState α) (ts : List α)
    (ce : Int) :
    (∀ ds : List Bool, navInv s → navInv (navSteps ds s)) ∧
    (navInv s → ∀ f, (vim_next_enclosing s).2 = some f →
      0 ≤ (vim_next_enclosing s).1.current_enclosing ∧
      (vim_next_enclosing s).1.current_enclosing <
        (s.enclosing_types.length : Int)) ∧
    (navInv s → ∀ f, (vim_prev_enclosing s).2 = some f →
      0 ≤ (vim_prev_enclosing s).1.current_enclosing ∧
      (vim_prev_enclosing s).1.current_enclosing <
        (s.enclosing_types.length : Int)) ∧
    (∀ k, k ≤ ts.length →
      nextIter k (⟨ts, 0⟩ : NavState α) = ⟨ts, (k : Int)⟩) ∧
    (ts ≠ [] →
      (vim_next_enclosing
        (⟨ts, (ts.length : Int) - 1⟩ : NavState α)).2 = none) ∧
    (∀ k, k ≤ ts.length →
      prevIter k (⟨ts, (ts.length : Int)⟩ : NavState α) =
        ⟨ts, ((ts.length - k : Nat) : Int)⟩) ∧
    (ts ≠ [] →
      vim_prev_enclosing (⟨ts, 0⟩ : NavState α) = (⟨ts, -1⟩, none)) ∧
    vim_next_enclosing (⟨[], ce⟩ : NavState α) = (⟨[], ce⟩, none) ∧
    vim_prev_enclosing (⟨[], ce⟩ : NavState α) = (⟨[], ce⟩, none) := by
  refine ⟨fun ds h => navInv_steps ds s h, ?_, ?_, ?_, ?_, ?_, ?_, ?_, ?_⟩
  · intro h f hf
    obtain ⟨tl, ci⟩ := s
    obtain ⟨h1, h2⟩ := h
    dsimp only at h1 h2
    by_cases hne : tl = []
    · subst hne
      simp [vim_next_enclosing] at hf
    · by_cases hlt : ci < (tl.length : Int)
      · rw [nav_next_step hne hlt] at hf ⊢
        by_cases hlt2 : ci + 1 < (tl.length : Int)
        · constructor
          · dsimp only; omega
          · dsimp only; exact hlt2
        · rw [if_neg hlt2] at hf
          exact absurd hf (by simp)
      · rw [nav_next_sat hne hlt] at hf
        exact absurd hf (by simp)
  · intro h f hf
    obtain ⟨tl, ci⟩ := s
    obtain ⟨h1, h2⟩ := h
    dsimp only at h1 h2
    by_cases hne : tl = []
    · subst hne
      simp [vim_prev_enclosing] at hf
    · by_cases hge : 0 ≤ ci
      · rw [nav_prev_step hne hge] at hf ⊢
        by_cases hge2 : 0 ≤ ci - 1
        · constructor
          · dsimp only; exact hge2
          · dsimp only; omega
        · rw [if_neg hge2] at hf
          exact absurd hf (by simp)
      · rw [nav_prev_sat hne hge] at hf
        exact absurd hf (by simp)
  · intro k hk
    have := nextIter_add ts k 0 (by omega)
    simpa using this
  · intro hne
    have hlt : (ts.length : Int) - 1 < (ts.length : Int) := by omega
    rw [nav_next_step hne hlt]
    simp
  · intro k hk
    exact prevIter_sub ts k ts.length hk le_rfl
  · intro hne
    rw [nav_prev_step hne le_rfl]
    simp
  · simp [vim_next_enclosing]
  · simp [vim_prev_enclosing]

/-- Witness for the C5 theorem on the two-frame sequence [5, 7]:
two forward steps from a fresh query land at the sentinel 2, one
backward step from index 0 lands at -1 emitting nothing, and an
arbitrary interleaving preserves the invariant. -/
theorem navigator_bounds_witness :
    nextIter 2 (⟨[5, 7], 0⟩ : NavState Nat) = ⟨[5, 7], 2⟩ ∧
    vim_prev_enclosing (⟨[5, 7], 0⟩ : NavState Nat) = (⟨[5, 7], -1⟩, none) ∧
    navInv (navSteps [true, false, true] (⟨[5, 7], 0⟩ : NavState Nat)) := by
  obtain ⟨hsteps, _, _, hnext, _, _, hprev0, _, _⟩ :=
    navigator_bounds (⟨[5, 7], 0⟩ : NavState Nat) [5, 7] 3
  exact ⟨by simpa using hnext 2 (by decide), hprev0 (by decide),
    hsteps [true, false, true] (by decide)⟩

/-- C5 counterexample: for the one-frame sequence, stepping backward
once (N = 1 times) from the sentinel index 1 lands at index 0 — not at
-1 — and emits the frame at index 0, contradicting the claim that N
backward steps from the sentinel return to -1 with nothing emitted on
the final step. -/
theorem prev_from_sentinel_emits :
    vim_prev_enclosing (⟨[0], 1⟩ : NavState Nat) = (⟨[0], 0⟩, some 0) ∧
    (0 : Int) ≠ -1 := by
  refine ⟨?_, by decide⟩
  rfl

/-- C6 (amended): `restart` — including the restarts forced by
`vim_add_flags` and `vim_clear_flags` — leaves the saved sync mark
untouched, so the next `sync_to` after a restart still reuses the
pre-restart mark: with the same buffer identity it seeks before the
stale mark and, whenever the fresh subprocess answers a position beyond
line 1, performs an incremental resend (no reset, partial content)
rather than a full resync; a full resync happens only when the answer
lands at or before line 1. -/
theorem restart_mark_behavior (s : Session) (args : List String) :
    (restart s).saved_sync = s.saved_sync ∧
    (vim_add_flags args s).saved_sync = s.saved_sync ∧
    (vim_clear_flags s).saved_sync = s.saved_sync ∧
    (∀ (env : SyncEnv) (saved curr : SyncTok) (name : String)
        (cb : List String) (e line col : Nat) (ln : String),
      s.saved_sync = some saved → curr.bufnr = saved.bufnr →
      env.seek_before saved.pos.1 saved.pos.2 = (line, col) →
      2 ≤ line → cb.get? (line - 1) = some ln →
      sync_plan env (vim_add_flags args s).saved_sync curr name cb e =
        Except.ok ([Ev.seekBefore saved.pos (line, col)],
          ln.drop col :: pySlice cb line e)) := by
  refine ⟨rfl, rfl, rfl, ?_⟩
  intro env saved curr name cb e line col ln hs hbuf hseek h2 hln
  have hmark : (vim_add_flags args s).saved_sync = some saved := by
    rw [show (vim_add_flags args s).saved_sync = s.saved_sync from rfl, hs]
  rw [hmark]
  have hno : ¬ line ≤ 1 := by omega
  rw [List.get?_eq_getElem?] at hln
  simp [sync_plan, hbuf, hseek, hno, hln]

/-- Witness for the C6 theorem: a session with a saved mark at (3,0)
keeps it across a flag-change restart, and the following sync takes the
incremental branch when the seek is answered with (2,0). -/
theorem restart_mark_behavior_witness :
    (vim_add_flags ["-pp"] ⟨[], some ⟨1, (3, 0)⟩, 0⟩).saved_sync =
      some ⟨1, (3, 0)⟩ ∧
    sync_plan ⟨fun _ _ => (2, 0), fun _ => true⟩
      (vim_add_flags ["-pp"] ⟨[], some ⟨1, (3, 0)⟩, 0⟩).saved_sync
      ⟨1, (3, 0)⟩ "a.ml" ["l1", "l2", "l3"] 3 =
      Except.ok ([Ev.seekBefore (3, 0) (2, 0)], ["l2", "l3"]) := by
  obtain ⟨h1, h2, h3, h4⟩ :=
    restart_mark_behavior ⟨[], some ⟨1, (3, 0)⟩, 0⟩ ["-pp"]
  refine ⟨by rw [h2], ?_⟩
  have h := h4 ⟨fun _ _ => (2, 0), fun _ => true⟩ ⟨1, (3, 0)⟩ ⟨1, (3, 0)⟩
    "a.ml" ["l1", "l2", "l3"] 3 2 0 "l2" rfl rfl rfl (by decide) (by decide)
  simpa using h

/-- C6 counterexample: a flag mutation restarts the subprocess but the
saved sync mark survives, and the next sync with the fresh subprocess
answering (2,0) to the stale seek performs an incremental resend of
lines 2-3 only — not the full resync the claim requires (no reset is
issued and the fed content differs from the full buffer). -/
theorem restart_keeps_mark_incremental :
    (vim_add_flags ["-pp"] ⟨[], some ⟨1, (3, 0)⟩, 0⟩).saved_sync =
      some ⟨1, (3, 0)⟩ ∧
    sync_plan ⟨fun _ _ => (2, 0), fun _ => true⟩ (some ⟨1, (3, 0)⟩)
      ⟨1, (3, 0)⟩ "a.ml" ["l1", "l2", "l3"] 3 =
      Except.ok ([Ev.seekBefore (3, 0) (2, 0)], ["l2", "l3"]) ∧
    (["l2", "l3"] : List String) ≠ pySlice ["l1", "l2", "l3"] 0 3 := by
  refine ⟨rfl, ?_, by decide⟩
  rfl

/-- C7 (amended): on a successful "type enclosing" query whose payload
is a pair with a nonempty frame list as its second element,
`vim_type_enclosing` stores that second element (not the whole payload)
as the enclosing sequence, sets the index to -1, and immediately
performs exactly one forward step, so the innermost frame (index 0) is
the one emitted and the index ends at 0. -/
theorem type_enclosing_fresh_query (env : TypeEnv) (expr : Option String)
    (p f : J) (rest : List J) :
    vim_type_enclosing (Except.ok (J.arr [p, J.arr (f :: rest)])) env expr
      = Except.ok (⟨f :: rest, 0⟩, TEOut.emitted f) := by
  have hne : (f :: rest) ≠ ([] : List J) := by simp
  have hlt : (-1 : Int) < ((f :: rest).length : Int) := by
    simp only [List.length_cons]
    omega
  have hstep := nav_next_step hne hlt
  have hidx : pyIndex (f :: rest) (-1 + 1) = some f := by
    simp [pyIndex]
  rw [show (-1 : Int) + 1 = 0 from by omega] at hstep hidx
  have hemit : (0 : Int) < ((f :: rest).length : Int) := by
    simp only [List.length_cons]
    omega
  rw [if_pos hemit, hidx] at hstep
  show (match (vim_next_enclosing (⟨f :: rest, -1⟩ : NavState J)).2 with
    | some fr =>
      Except.ok ((vim_next_enclosing (⟨f :: rest, -1⟩ : NavState J)).1,
        TEOut.emitted fr)
    | none =>
      Except.ok ((vim_next_enclosing (⟨f :: rest, -1⟩ : NavState J)).1,
        TEOut.nothingEmitted)) = _
  rw [hstep]

/-- C7 counterexample: with the payload [null, [t]] (a position paired
with the frame list, as the subprocess answers), the stored sequence is
[t] — the payload's second element — and not the payload's own list of
two elements, contradicting the claim that the stored sequence is the
command's payload. -/
theorem enclosing_payload_second_element :
    vim_type_enclosing (Except.ok (J.arr [J.null, J.arr [J.str "t"]]))
      ⟨fun _ => Except.ok J.null, Except.ok J.null⟩ none =
      Except.ok (⟨[J.str "t"], 0⟩, TEOut.emitted (J.str "t")) ∧
    ([J.str "t"] : List J) ≠ [J.null, J.arr [J.str "t"]] := by
  constructor
  · rfl
  · intro h
    have := (List.cons.injEq _ _ _ _).mp h
    exact J.noConfusion this.1

/-- C8 (amended): with no intervening edits (modelled as: the fresh
token equals the saved one), a second `sync_to(P)` leaves the saved
mark with the same value (the fresh token), but it does not send zero
content: it seeks before the mark and issues a tell whose content is
the remainder of the answered line from the answered column followed by
the buffer lines up to the target line; only when the answered position
is at or past both the target end line and the end of its own line does
that content degenerate to the single empty fragment (wire text one
newline) — still a tell command, carrying no buffer lines. -/
theorem second_sync_behavior (env : SyncEnv) (fuel : Nat) (curr : SyncTok)
    (name : String) (cb : List String) (to_line to_col : Nat)
    (line col : Nat) (ln : String)
    (hseek : env.seek_before curr.pos.1 curr.pos.2 = (line, col))
    (h2 : 2 ≤ line) (hln : cb.get? (line - 1) = some ln) :
    (∀ st evs,
      sync_buffer_to env fuel (some curr) curr name cb to_line to_col =
        Except.ok (st, evs) → st = some curr) ∧
    sync_plan env (some curr) curr name cb (min to_line cb.length) =
      Except.ok ([Ev.seekBefore curr.pos (line, col)],
        ln.drop col :: pySlice cb line (min to_line cb.length)) ∧
    (min to_line cb.length ≤ line → ln.drop col = "" →
      ln.drop col :: pySlice cb line (min to_line cb.length) = [""] ∧
      command_tell_wire (some [""]) = TellArg.text "\n") := by
  refine ⟨?_, ?_, ?_⟩
  · intro st evs h
    rw [sync_buffer_to] at h
    rcases hsp : sync_plan env (some curr) curr name cb
        (min to_line cb.length) with e | pc
    · rw [hsp] at h
      simp at h
    · rw [hsp] at h
      obtain ⟨evs0, content⟩ := pc
      dsimp only at h
      rcases hfd : (if content.isEmpty then Except.ok [] else
          feedLoop env.tell cb cb.length fuel 0 true (some content)
            (min to_line cb.length)) with e2 | fevs
      · rw [hfd] at h
        simp at h
      · rw [hfd] at h
        simp only [Except.ok.injEq, Prod.mk.injEq] at h
        exact h.1.symm
  · have hno : ¬ line ≤ 1 := by omega
    rw [List.get?_eq_getElem?] at hln
    simp [sync_plan, hseek, hno, hln]
  · intro he hdrop
    have hnil : pySlice cb line (min to_line cb.length) = [] := by
      apply List.drop_eq_nil_of_le
      rw [List.length_take]
      omega
    rw [hdrop, hnil]
    exact ⟨rfl, rfl⟩

/-- Witness for the C8 theorem: a fully synced three-line buffer whose
seek is answered with the end of line 3; the second sync's tell content
is the single empty fragment. -/
theorem second_sync_behavior_witness :
    sync_plan ⟨fun _ _ => (3, 9), fun _ => true⟩ (some ⟨1, (3, 9)⟩)
      ⟨1, (3, 9)⟩ "a.ml" ["let a = 1", "let b = 2", "let c = 3"]
      (min 3 3) =
      Except.ok ([Ev.seekBefore (3, 9) (3, 9)],
        ("let c = 3").drop 9 ::
          pySlice ["let a = 1", "let b = 2", "let c = 3"] 3 (min 3 3)) ∧
    ("let c = 3").drop 9 ::
        pySlice ["let a = 1", "let b = 2", "let c = 3"] 3 (min 3 3) =
      [""] ∧
    command_tell_wire (some [""]) = TellArg.text "\n" := by
  obtain ⟨h1, h2, h3⟩ := second_sync_behavior
    ⟨fun _ _ => (3, 9), fun _ => true⟩ 10 ⟨1, (3, 9)⟩ "a.ml"
    ["let a = 1", "let b = 2", "let c = 3"] 3 0 3 9 "let c = 3"
    rfl (by decide) (by decide)
  have h4 := h3 (by decide) (by decide)
  exact ⟨h2, h4.1, h4.2⟩

/-- C8 counterexample: an unedited second sync (fresh token identical
to the saved one) whose seek is answered with (2,0) resends buffer
lines 2 and 3 in a tell command, contradicting the claim that the
second call sends zero buffer content and issues no tell carrying
lines. -/
theorem second_sync_resends_lines :
    sync_buffer_to ⟨fun _ _ => (2, 0), fun _ => true⟩ 10
      (some ⟨1, (3, 0)⟩) ⟨1, (3, 0)⟩ "a.ml"
      ["let a = 1", "let b = 2", "let c = 3"] 3 0 =
      Except.ok (some ⟨1, (3, 0)⟩,
        [Ev.seekBefore (3, 0) (2, 0),
         Ev.tellStruct (some ["let b = 2", "let c = 3"]),
         Ev.seekExact 3 0]) ∧
    lineContents [Ev.seekBefore (3, 0) (2, 0),
      Ev.tellStruct (some ["let b = 2", "let c = 3"]),
      Ev.seekExact 3 0] = [["let b = 2", "let c = 3"]] := by
  exact ⟨rfl, rfl⟩

/-- C9: type lookup degrades gracefully and never hides a failure.
Whenever "type enclosing" raises a merlin exception or returns an empty
sequence, `vim_type_enclosing` falls back to `vim_type` with the
approximation marker set; `vim_type` called with the marker never
prints an unannotated result; and when the fallback's own queries fail,
the exception is handed to the standard error-printing path
(`try_print_error`, whose every branch prints), never swallowed. -/
theorem type_fallback_reporting (env : TypeEnv) (expr : Option String)
    (m : MExc) (p : J) (ex2 : MExc) :
    (vim_type_enclosing (Except.error m) env expr =
      Except.ok (⟨[], -1⟩, TEOut.fallback (vim_type env expr true))) ∧
    (vim_type_enclosing (Except.ok (J.arr [p, J.arr []])) env expr =
      Except.ok (⟨[], -1⟩, TEOut.fallback (vim_type env expr true))) ∧
    (∀ (o : Option String) (a : Bool) (e : Option String) (t : J),
      vim_type env o true = VimTypeOut.printed a e t → a = true) ∧
    (env.typeAt = Except.error ex2 →
      vim_type env none true = VimTypeOut.reportedVia ex2) ∧
    (∀ (s : String) (ex1 : MExc),
      env.typeExpr s = Except.error ex1 → env.typeAt = Except.error ex2 →
      vim_type env (some s) true = VimTypeOut.reportedVia ex2) := by
  refine ⟨rfl, rfl, ?_, ?_, ?_⟩
  · intro o a e t h
    cases o with
    | none =>
      cases henv : env.typeAt with
      | ok ty =>
        simp only [vim_type, henv] at h
        exact ((VimTypeOut.printed.inj h).1).symm
      | error ex =>
        simp only [vim_type, henv] at h
        exact VimTypeOut.noConfusion h
    | some s =>
      cases henvE : env.typeExpr s with
      | ok ty =>
        simp only [vim_type, henvE] at h
        exact ((VimTypeOut.printed.inj h).1).symm
      | error ex =>
        simp only [vim_type, henvE] at h
        cases henv : env.typeAt with
        | ok ty =>
          simp only [vim_type, henv] at h
          exact ((VimTypeOut.printed.inj h).1).symm
        | error ex0 =>
          simp only [vim_type, henv] at h
          exact VimTypeOut.noConfusion h
  · intro hat
    simp [vim_type, hat]
  · intro s ex1 he hat
    simp [vim_type, he, hat]

/-- Witness for the C9 theorem: an environment in which both type
queries fail; the enclosing failure falls back and the fallback's
failure is reported via the error-printing path. -/
theorem type_fallback_reporting_witness :
    vim_type_enclosing (Except.error (MExc.failure none))
      ⟨fun _ => Except.error (MExc.failure none),
        Except.error (MExc.merlinError none)⟩ none =
      Except.ok (⟨[], -1⟩, TEOut.fallback
        (vim_type ⟨fun _ => Except.error (MExc.failure none),
          Except.error (MExc.merlinError none)⟩ none true)) ∧
    vim_type ⟨fun _ => Except.error (MExc.failure none),
        Except.error (MExc.merlinError none)⟩ (some "x") true =
      VimTypeOut.reportedVia (MExc.merlinError none) := by
  obtain ⟨h1, _, _, _, h5⟩ := type_fallback_reporting
    ⟨fun _ => Except.error (MExc.failure none),
      Except.error (MExc.merlinError none)⟩ none
    (MExc.failure none) J.null (MExc.merlinError none)
  exact ⟨h1, h5 "x" (MExc.failure none) rfl rfl⟩

/-- C10: for a multi-line span, `hard_matcher` is the three-way
alternative of `easy_matcher` patterns in which the start-line tail and
the interior lines are bounded at the fixed column constant 4242, so a
position on the start line or an interior line with a column beyond
4242 falls outside the produced highlight region; only the end-line
head (and, via `make_matcher`, single-line spans) uses the span's
actual columns. -/
theorem hard_matcher_bounds (start stop : MPos) (h1 : 1 ≤ start.line)
    (hlt : start.line < stop.line) :
    (hard_matcher start stop =
      easy_matcher ⟨start.line, start.col⟩ ⟨start.line, 4242⟩ ++ "\\|" ++
      easy_matcher ⟨start.line + 1, 0⟩ ⟨stop.line - 1, 4242⟩ ++ "\\|" ++
      easy_matcher ⟨stop.line, 0⟩ ⟨stop.line, stop.col⟩) ∧
    (∀ l c : Int, start.line ≤ l → l < stop.line → 4242 < c →
      ¬ hard_region start stop l c) ∧
    (∀ c : Int,
      easy_region ⟨stop.line, 0⟩ ⟨stop.line, stop.col⟩ stop.line c ↔
        c ≤ stop.col) ∧
    (∀ p q : MPos, p.line = q.line → make_matcher p q = easy_matcher p q) := by
  refine ⟨rfl, ?_, ?_, ?_⟩
  · intro l c hl1 hl2 hc hreg
    simp only [hard_region, easy_region] at hreg
    rcases hreg with ⟨ha, hb, hc2, hd⟩ | ⟨ha, hb, hc2, hd⟩ | ⟨ha, hb, hc2, hd⟩
    · omega
    · omega
    · omega
  · intro c
    simp only [easy_region]
    omega
  · intro p q hpq
    rw [make_matcher, if_pos hpq]

/-- Witness for the C10 theorem on the span (1,3)-(3,5): column 5000 on
line 2 is outside the highlight region, column 4 on the end line 3 is
inside, and a single-line span goes through `easy_matcher`. -/
theorem hard_matcher_bounds_witness :
    ¬ hard_region ⟨1, 3⟩ ⟨3, 5⟩ 2 5000 ∧
    (easy_region ⟨3, 0⟩ ⟨3, 5⟩ 3 4 ↔ (4 : Int) ≤ 5) ∧
    make_matcher ⟨2, 1⟩ ⟨2, 9⟩ = easy_matcher ⟨2, 1⟩ ⟨2, 9⟩ := by
  obtain ⟨_, hb, hcm, hd⟩ := hard_matcher_bounds ⟨1, 3⟩ ⟨3, 5⟩
    (by decide) (by decide)
  exact ⟨hb 2 5000 (by decide) (by decide) (by decide),
    hcm 4, hd ⟨2, 1⟩ ⟨2, 9⟩ rfl⟩

end Merlin
